import Mathlib

/-!
Verification development for the QRToolkits data store.

This file gives a shallow embedding of the core of the repository:
the classification taxonomy and its validation (`database/db.py`),
the request-parameter parsing and query validation (`database/db.py`),
the metadata catalog tree (`database/db.py`),
the period sharding helpers and the in-memory merge unit of the JSON
engine (`database/jsonEngine/dbcore.py`), and
the incremental update orchestrator (`pitdata/updater/operator.py`,
`pitdata/utils.py`).

Python-level conventions used throughout the embedding:
* exceptions are modelled with `Option`/`Except` (`none`/`.error` = raise);
* timestamps are modelled as `Int`, instrument symbols as `Nat`
  (only their ordering and equality matter to the verified code);
* a pandas cell is `Option Int`, with `none` standing for the NaN filler
  that `reindex` introduces for freshly added columns.
-/

/- ## Classification taxonomy (database/const.py, database/db.py) -/

/-- Top-level structure classification. -/
inductive DataClassification where
  | STRUCTURED
  | UNSTRUCTURED
deriving DecidableEq, Repr, Fintype

/-- Value-kind classification. -/
inductive DataValueCategory where
  | CHAR
  | NUMERIC
deriving DecidableEq, Repr, Fintype

/-- Layout-kind classification. -/
inductive DataFormatCategory where
  | PANEL
  | TIME_SERIES
deriving DecidableEq, Repr, Fintype

/-- An element of a `StoreFormat` tuple.  In the Python source the tuple
holds values of the three enum classes above, and the rule dictionary of
`StoreFormat.__init__` additionally uses the Python value `None` both as a
key and as a legal successor; `pyNone` models that value. -/
inductive Cate where
  | classification (c : DataClassification)
  | valueCategory (v : DataValueCategory)
  | formatCategory (f : DataFormatCategory)
  | pyNone
deriving DecidableEq, Repr, Fintype

/-- The transition dictionary `self._rule` of `StoreFormat.__init__`
(db.py lines 66-72).  A key absent from the dictionary yields `none`
(a Python `KeyError` on lookup). -/
def storeRule : Cate → Option (List Cate)
  | .classification .STRUCTURED =>
      some [.valueCategory .CHAR, .valueCategory .NUMERIC]
  | .classification .UNSTRUCTURED => some [.pyNone]
  | .valueCategory .CHAR =>
      some [.formatCategory .PANEL, .formatCategory .TIME_SERIES]
  | .valueCategory .NUMERIC =>
      some [.formatCategory .PANEL, .formatCategory .TIME_SERIES]
  | .pyNone => some [.pyNone]
  | _ => none

/-- The loop body of `StoreFormat.validate` (db.py lines 96-114).
`last` is the Python variable `last_cate`; its initial Python value `None`
is the same object as a tuple element `None`, so the `last_cate is None`
guard fires both on the first iteration and right after a `None` element.
The result is `none` when the Python code would raise `KeyError`. -/
def validateLoop : Cate → List Cate → Option Bool
  | _, [] => some true
  | last, c :: rest =>
      if last = .pyNone then validateLoop c rest
      else
        match storeRule last with
        | none => none
        | some allowed =>
            if c ∈ allowed then validateLoop c rest else some false

/-- `StoreFormat.validate` on the stored classification tuple. -/
def validate (data : List Cate) : Option Bool :=
  validateLoop .pyNone data

/-- The adjacency table of the specification (spec §3):
`UNSTRUCTURED` is followed only by the terminal `None`, `STRUCTURED` by
`CHAR` or `NUMERIC`, `CHAR`/`NUMERIC` by `PANEL` or `TIME_SERIES`, and
`None` only by `None`. -/
def allowedPair : Cate → Cate → Bool
  | .classification .UNSTRUCTURED, .pyNone => true
  | .classification .STRUCTURED, .valueCategory _ => true
  | .valueCategory _, .formatCategory _ => true
  | .pyNone, .pyNone => true
  | _, _ => false

/-- A tuple obeys the specification's transition table iff every adjacent
pair is allowed. -/
def tableOk (l : List Cate) : Prop :=
  List.Chain' (fun a b => allowedPair a b = true) l

instance (l : List Cate) : Decidable (tableOk l) :=
  inferInstanceAs (Decidable (List.Chain' (fun a b => allowedPair a b = true) l))

/- ## Request parameters and query validation (database/db.py) -/

/-- Database-level failures.  The Python source raises `ValueError` with
distinct messages at distinct sites, plus dictionary/index errors. -/
inductive DBErr where
  | invalidParameter
  | invalidQuery
  | keyError
  | indexError
deriving DecidableEq, Repr

/-- The immutable parameter object built by `ParamsParser.from_dict`. -/
structure ParamsParser where
  mainPath : String
  relPath : String
  startTime : Option Int
  endTime : Option Int
  storeFmt : List Cate
deriving DecidableEq, Repr

/-- `ParamsParser.from_dict` (db.py lines 190-224).  The only validation
performed is `obj.store_fmt.validate()`; the `_validation_rule`
dictionary built in `__init__` is never consulted here.  A `KeyError`
escaping `validate` propagates. -/
def from_dict (dbPath relPath : String) (startTime endTime : Option Int)
    (storeFmt : List Cate) : Except DBErr ParamsParser :=
  match validate storeFmt with
  | none => .error .keyError
  | some false => .error .invalidParameter
  | some true =>
      .ok { mainPath := dbPath, relPath := relPath, startTime := startTime,
            endTime := endTime, storeFmt := storeFmt }

/-- The `validation_rule` dictionary of `Database.query`
(db.py lines 316-320), keyed by `(start_time is None, end_time is None)`;
`none` models the Python `None` entry for the only-end pattern. -/
def queryValidationRule (startTime endTime : Option Int) : Option Cate :=
  match startTime, endTime with
  | some _, some _ => some (.classification .STRUCTURED)
  | some _, none => some (.classification .STRUCTURED)
  | none, some _ => none
  | none, none => some (.classification .UNSTRUCTURED)

/-- `Database.query` up to the engine call (db.py lines 292-327): build
the parameter object, then check the time-presence pattern against the
classification's top level.  The engine itself is outside the verified
core, so a validated query returns its parameter object. -/
def dbQuery (dbPath relPath : String) (storeFmt : List Cate)
    (startTime endTime : Option Int) : Except DBErr ParamsParser :=
  match from_dict dbPath relPath startTime endTime storeFmt with
  | .error e => .error e
  | .ok params =>
      match queryValidationRule startTime endTime with
      | none => .error .invalidQuery
      | some v =>
          match params.storeFmt.head? with
          | none => .error .indexError
          | some c0 => if v = c0 then .ok params else .error .invalidQuery

/- ## Metadata catalog (database/db.py, DataNode) -/

/-- A serialized catalog tree: a dict with a `children` key is an internal
node, a dict without it is a leaf carrying a `store_fmt` string tuple
(db.py lines 480-514). -/
inductive MetaTree where
  | leaf (name : String) (storeFmt : List String)
  | node (name : String) (children : List MetaTree)

/-- The `node_name` field of a serialized node. -/
def metaName : MetaTree → String
  | .leaf n _ => n
  | .node n _ => n

/-- Parse a first-level classification name (`DataClassification[s]`). -/
def parseClassification : String → Option Cate
  | "STRUCTURED" => some (.classification .STRUCTURED)
  | "UNSTRUCTURED" => some (.classification .UNSTRUCTURED)
  | _ => none

/-- Parse a second-level classification name (`DataValueCategory[s]`). -/
def parseValueCategory : String → Option Cate
  | "CHAR" => some (.valueCategory .CHAR)
  | "NUMERIC" => some (.valueCategory .NUMERIC)
  | _ => none

/-- Parse a third-level classification name (`DataFormatCategory[s]`). -/
def parseFormatCategory : String → Option Cate
  | "PANEL" => some (.formatCategory .PANEL)
  | "TIME_SERIES" => some (.formatCategory .TIME_SERIES)
  | _ => none

/-- `strs2StoreFormat` (db.py lines 26-47).  Because
`max_length = max(len(formater), len(t))` with `len(formater) = 3`, the
element loop indexes both lists up to that bound: a tuple shorter than 3
raises `IndexError`, one longer than 3 raises `NotImplementedError`, and
an unknown name raises `KeyError`; all are modelled as `none`. -/
def strs2StoreFormat : List String → Option (List Cate)
  | [a, b, c] =>
      match parseClassification a, parseValueCategory b, parseFormatCategory c with
      | some x, some y, some z => some [x, y, z]
      | _, _, _ => none
  | _ => none

/-- The `name` attribute of an enum member, as used by
`StoreFormat.to_strtuple` (db.py lines 116-128).  `pyNone` never occurs in
a tuple built by `strs2StoreFormat`; its image is arbitrary. -/
def cateName : Cate → String
  | .classification .STRUCTURED => "STRUCTURED"
  | .classification .UNSTRUCTURED => "UNSTRUCTURED"
  | .valueCategory .CHAR => "CHAR"
  | .valueCategory .NUMERIC => "NUMERIC"
  | .formatCategory .PANEL => "PANEL"
  | .formatCategory .TIME_SERIES => "TIME_SERIES"
  | .pyNone => ""

/-- `StoreFormat.to_strtuple`. -/
def toStrTuple (l : List Cate) : List String := l.map cateName

/-- An in-memory catalog node (`DataNode`): name, classification (only on
leaves), and the `_children` dict, modelled as an insertion-ordered
association list keyed by child name. -/
inductive DNode where
  | mk (name : String) (storeFmt : Option (List Cate))
      (children : List (String × DNode))

/-- The `node_name` attribute of a `DataNode`. -/
def nodeName : DNode → String
  | .mk n _ _ => n

/-- Insertion into a Python dict: an existing key keeps its position and
has its value replaced, a new key is appended.  This is the
`self._children[child.node_name] = child` of `DataNode.add_child`. -/
def dictInsert : List (String × DNode) → String → DNode → List (String × DNode)
  | [], k, v => [(k, v)]
  | (k0, v0) :: rest, k, v =>
      if k0 = k then (k0, v) :: rest else (k0, v0) :: dictInsert rest k v

mutual

/-- `DataNode.init_from_meta` (db.py lines 480-514): a dict with a
`children` key becomes an internal node whose children are built
recursively and attached with `add_child`; a leaf parses its `store_fmt`
through `strs2StoreFormat`.  `none` models a raised exception. -/
def init_from_meta : MetaTree → Option DNode
  | .leaf name fmt =>
      match strs2StoreFormat fmt with
      | none => none
      | some f => some (.mk name (some f) [])
  | .node name children =>
      match initChildrenAux [] children with
      | none => none
      | some cs => some (.mk name none cs)

/-- The `for child_meta in meta_data['children']` loop of
`init_from_meta`, building the children dict left to right. -/
def initChildrenAux : List (String × DNode) → List MetaTree →
    Option (List (String × DNode))
  | acc, [] => some acc
  | acc, t :: ts =>
      match init_from_meta t with
      | none => none
      | some c => initChildrenAux (dictInsert acc (nodeName c) c) ts

end

mutual

/-- `DataNode.to_dict` (db.py lines 561-590): a leaf (no children) emits
its name and `store_fmt` string tuple; an internal node emits its name and
its serialized children in dict order.  A leaf whose `_store_fmt` is the
Python `None` raises `AttributeError` (`none`). -/
def to_dict : DNode → Option MetaTree
  | .mk name fmt children =>
      match children with
      | [] =>
          match fmt with
          | none => none
          | some f => some (.leaf name (toStrTuple f))
      | c :: cs =>
          match toDictChildren (c :: cs) with
          | none => none
          | some ms => some (.node name ms)

/-- Serialize the values of a children dict in order. -/
def toDictChildren : List (String × DNode) → Option (List MetaTree)
  | [] => some []
  | (_, d) :: rest =>
      match to_dict d with
      | none => none
      | some m =>
          match toDictChildren rest with
          | none => none
          | some ms => some (m :: ms)

end

/-- `serialize (buildFromTree tree)`: rebuild the node graph from the
serialized tree, then serialize it again. -/
def roundTrip (t : MetaTree) : Option MetaTree :=
  match init_from_meta t with
  | none => none
  | some d => to_dict d

mutual

/-- Well-formedness of a serialized catalog tree: every leaf carries a
parseable three-level `store_fmt`, and every internal node has a nonempty
children list with pairwise distinct child names. -/
def wfMeta : MetaTree → Bool
  | .leaf _ fmt => (strs2StoreFormat fmt).isSome
  | .node _ children => !children.isEmpty && wfChildren children

/-- Well-formedness of a sibling list: each child is well formed and its
name differs from the names of all later siblings. -/
def wfChildren : List MetaTree → Bool
  | [] => true
  | t :: ts =>
      wfMeta t && ts.all (fun u => metaName u ≠ metaName t) && wfChildren ts

end

/- ## Period sharding (database/jsonEngine/dbcore.py) -/

/-- A calendar date as consumed by `pd.to_datetime`; `month` ranges over
1..12 (enforced by hypotheses where it matters). -/
structure PDate where
  year : Nat
  month : Nat
  day : Nat
deriving DecidableEq, Repr

/-- `date.quarter` of pandas: the quarter 1..4 containing `month`. -/
def quarterOf (d : PDate) : Nat := (d.month + 2) / 3

/-- Zero-padded two-digit rendering, the `'%02d'` of `strftime('%m')`. -/
def pad2 (n : Nat) : String :=
  if n < 10 then "0" ++ toString n else toString n

/-- The store-wide `data_spilt_frequency` configuration value. -/
inductive SplitFreq where
  | YEAR
  | MONTH
  | QUARTER
deriving DecidableEq, Repr

/-- `date2filename` (dbcore.py lines 39-72): the period key of a date
under the configured sharding granularity. -/
def date2filename (freq : SplitFreq) (d : PDate) : String :=
  match freq with
  | .YEAR => toString d.year
  | .MONTH => toString d.year ++ pad2 d.month
  | .QUARTER => toString d.year ++ "Q" ++ toString (quarterOf d)

/-- The cursor loop of `date2filenamelist` (dbcore.py lines 112-122):
emit `str(year) + identifier + minor_format % minor`, advance `minor`,
and on overflow past `cycleLen` reset it to 1 and advance `year`, while
`(year, minor)` has not passed `(endYear, minorEnd)`. -/
def filenameLoop (identStr : String) (pad : Nat → String) (cycleLen : Nat)
    (endYear minorEnd year minor : Nat) : List String :=
  if h : year < endYear ∨ (year = endYear ∧ minor ≤ minorEnd) then
    (toString year ++ identStr ++ pad minor) ::
      (if minor + 1 > cycleLen then
        filenameLoop identStr pad cycleLen endYear minorEnd (year + 1) 1
      else
        filenameLoop identStr pad cycleLen endYear minorEnd year (minor + 1))
  else []
termination_by (endYear + 1 - year, cycleLen - minor)
decreasing_by
  · apply Prod.Lex.left
    omega
  · apply Prod.Lex.right
    omega

/-- `date2filenamelist` (dbcore.py lines 74-122).  The Python code
recovers `(year, minor)` by slicing the `date2filename` strings: the
first four characters are the year, the non-digit remainder is the
identifier (`''` for MONTH, `'Q'` for QUARTER) and the digits after it
are the minor number with its print width.  For four-digit years that
parse returns exactly the year and the month/quarter of the date, which
the embedding passes directly. -/
def date2filenamelist (freq : SplitFreq) (s e : PDate) : List String :=
  match freq with
  | .YEAR => (List.range' s.year (e.year + 1 - s.year)).map toString
  | .MONTH => filenameLoop "" pad2 12 e.year e.month s.year s.month
  | .QUARTER =>
      filenameLoop "Q" (fun n => toString n) 4 e.year (quarterOf e)
        s.year (quarterOf s)

/-- Date order as used by `pd.to_datetime` comparisons: lexicographic on
(year, month, day). -/
def dateLE (a b : PDate) : Prop :=
  a.year < b.year ∨
    (a.year = b.year ∧
      (a.month < b.month ∨ (a.month = b.month ∧ a.day ≤ b.day)))

instance (a b : PDate) : Decidable (dateLE a b) := by
  unfold dateLE; infer_instance

/- ## The in-memory merge unit (DataWrapper, dbcore.py lines 129-339) -/

/-- A `DataWrapper`: either a panel table (a DataFrame with an explicit
symbol-column order and one value list per timestamp row) or a
time-series table (a Series of one value per timestamp).  Rows are kept
in index order; cells are `Option Int` with `none` for NaN. -/
inductive DataWrapper where
  | panel (cols : List Nat) (rows : List (Int × List (Option Int)))
  | tseries (rows : List (Int × Option Int))
deriving DecidableEq, Repr

/-- The time index of the wrapped table. -/
def windex : DataWrapper → List Int
  | .panel _ rows => rows.map Prod.fst
  | .tseries rows => rows.map Prod.fst

/-- `start_time`: the first index entry (`self._data.index[0]`); the
default is junk for an empty table, where Python raises `IndexError`. -/
def start_time (d : DataWrapper) : Int := (windex d).headD 0

/-- `end_time`: the last index entry (`self._data.index[-1]`). -/
def end_time (d : DataWrapper) : Int := (windex d).getLastD 0

/-- `data_category`. -/
def data_category : DataWrapper → DataFormatCategory
  | .panel _ _ => .PANEL
  | .tseries _ => .TIME_SERIES

/-- `drop_before_date` (dbcore.py lines 217-229): a no-op when `date`
precedes the first index entry, otherwise keep exactly the rows with a
time strictly after `date` (`data.loc[data.index > date]`). -/
def drop_before_date (d : DataWrapper) (date : Int) : DataWrapper :=
  if date < start_time d then d
  else
    match d with
    | .panel cols rows => .panel cols (rows.filter (fun r => date < r.1))
    | .tseries rows => .tseries (rows.filter (fun r => date < r.1))

/-- Column lookup in a row, walking the column order and the value list in
parallel; an absent column (or an exhausted value list) yields NaN.  This
is how `DataFrame.reindex` reads a cell of the original frame. -/
def lookupVal : List Nat → List (Option Int) → Nat → Option Int
  | [], _, _ => none
  | _ :: _, [], _ => none
  | c :: cs, v :: vs, target =>
      if c = target then v else lookupVal cs vs target

/-- `DataFrame.reindex(columns=newCols)` on one row: the new value list
reads each new column out of the old row, NaN-filling fresh columns. -/
def reindexRow (oldCols newCols : List Nat) (vs : List (Option Int)) :
    List (Option Int) :=
  newCols.map (fun c => lookupVal oldCols vs c)

/-- Ordered insertion, the building block of ascending sort. -/
def insertSorted (x : Nat) : List Nat → List Nat
  | [] => [x]
  | y :: ys => if x ≤ y then x :: y :: ys else y :: insertSorted x ys

/-- Ascending insertion sort, modelling Python's `sorted(...)` on the
symbol difference. -/
def sortAsc (l : List Nat) : List Nat := l.foldr insertSorted []

/-- `rearrange_symbol` (dbcore.py lines 231-246) on a panel's columns and
rows: keep everything when the column order already equals `order`,
otherwise reindex to `order` followed by the remaining own columns in
ascending order (`columns.difference(symbol_order)` is that set
difference, already sorted, and `sorted(..., reverse=False)` sorts it
again). -/
def rearrange_symbol (cols : List Nat) (rows : List (Int × List (Option Int)))
    (order : List Nat) : List Nat × List (Int × List (Option Int)) :=
  if cols = order then (cols, rows)
  else
    let diff := sortAsc (cols.filter (fun c => !(order.contains c)))
    let newOrder := order ++ diff
    (newOrder, rows.map (fun r => (r.1, reindexRow cols newOrder r.2)))

/-- The outcome of `DataWrapper.update` (dbcore.py lines 248-274):
success with the merged unit, a skip with a `RuntimeWarning` leaving the
data unchanged, the `ValueError('Duplicated time index')`, or the
`ValueError` for incompatible data categories. -/
inductive MergeOutcome where
  | merged (res : DataWrapper)
  | skipped (res : DataWrapper)
  | dupIndexError
  | categoryError
deriving DecidableEq, Repr

/-- `DataWrapper.update` (dbcore.py lines 248-274).  After the category
and time-shape guards: trim `self` past `other.end_time`; for panels,
rearrange `self` to `other`'s symbol order and then `other` to the
resulting order (the second call is a no-op reindex onto the common
order, so both frames end with identical columns and `pd.concat` keeps
that order); concatenate `other`'s rows before the trimmed rows and fail
on a duplicated time index. -/
def update (self other : DataWrapper) : MergeOutcome :=
  if data_category self ≠ data_category other then .categoryError
  else if ¬(start_time other ≤ start_time self ∧
            start_time self ≤ end_time other ∧
            end_time other ≤ end_time self) then .skipped self
  else
    match drop_before_date self (end_time other), other with
    | .panel scols srows, .panel ocols orows =>
        let sres := rearrange_symbol scols srows ocols
        let ores := rearrange_symbol ocols orows sres.1
        let newRows := ores.2 ++ sres.2
        if ¬(newRows.map Prod.fst).Nodup then .dupIndexError
        else .merged (.panel ores.1 newRows)
    | .tseries srows, .tseries orows =>
        let newRows := orows ++ srows
        if ¬(newRows.map Prod.fst).Nodup then .dupIndexError
        else .merged (.tseries newRows)
    | _, _ => .categoryError

/-- The column order of a panel wrapper (`symbol_index`); `[]` for a time
series, whose `symbol_index` is the Python `None`. -/
def colsOf : DataWrapper → List Nat
  | .panel cols _ => cols
  | .tseries _ => []

/-- The cell of a panel wrapper at a given time and symbol: the first row
carrying that time, read at that column.  `none` when the time is absent
(or for a time series). -/
def cellAt (d : DataWrapper) (t : Int) (c : Nat) : Option (Option Int) :=
  match d with
  | .panel cols rows =>
      (rows.find? (fun r => r.1 = t)).map (fun r => lookupVal cols r.2 c)
  | .tseries _ => none

/-- The value of a time-series wrapper at a given time; `none` when the
time is absent (or for a panel). -/
def valAt (d : DataWrapper) (t : Int) : Option (Option Int) :=
  match d with
  | .tseries rows => (rows.find? (fun r => r.1 = t)).map Prod.snd
  | .panel _ _ => none

/-- The data-model invariant of a wrapped unit (spec §3): a nonempty,
strictly increasing time index, and for panels a duplicate-free column
order. -/
def WFWrapper (d : DataWrapper) : Prop :=
  windex d ≠ [] ∧ (windex d).Pairwise (fun a b => a < b) ∧ (colsOf d).Nodup

instance (d : DataWrapper) : Decidable (WFWrapper d) := by
  unfold WFWrapper; infer_instance

/- ## Update orchestrator (pitdata/utils.py, pitdata/updater/operator.py) -/

/-- `DataDescription` (pitdata/utils.py lines 11-52).  The `dependency`
attribute is stored as whatever `tuple(dep)` produces, so it is modelled
as `Option (List String)`; only the constructor can decide which shape it
takes. -/
structure DataDescription where
  name : String
  dependency : Option (List String)
deriving DecidableEq, Repr

/-- `DataDescription.__init__` with the calc method, update time, data
type and description abstracted away: the constructor applies `tuple()`
to `dep` unconditionally, and `tuple(None)` raises `TypeError`, so the
documented default `dep=None` can never produce an object. -/
def mkDataDescription (name : String) (dep : Option (List String)) :
    Except Unit DataDescription :=
  match dep with
  | none => .error ()
  | some l => .ok { name := name, dependency := some l }

/-- A watermark map (`ut_meta`), a Python dict `{name: end_time}`
modelled as an insertion-ordered association list. -/
def lookupMeta : List (String × Int) → String → Option Int
  | [], _ => none
  | (k, v) :: rest, d => if k = d then some v else lookupMeta rest d

/-- `ut_meta[name] = end_time` on a Python dict: replace in place or
append. -/
def setMeta : List (String × Int) → String → Int → List (String × Int)
  | [], k, v => [(k, v)]
  | (k0, v0) :: rest, k, v =>
      if k0 = k then (k0, v) :: rest else (k0, v0) :: setMeta rest k v

/-- The dependency loop of `is_dependency_updated` (operator.py lines
125-131): `ut_meta[dep]` raises `KeyError` (`.error`) when a dependency
has no watermark entry; an entry differing from `end_time` returns
`False`. -/
def depCheckLoop : List String → List (String × Int) → Int → Except Unit Bool
  | [], _, _ => .ok true
  | d :: ds, meta, endTime =>
      match lookupMeta meta d with
      | none => .error ()
      | some t => if t ≠ endTime then .ok false else depCheckLoop ds meta endTime

/-- `is_dependency_updated` (operator.py lines 108-131): `None`
dependencies mean no dependencies, otherwise every dependency's watermark
must equal the run's end time. -/
def is_dependency_updated (dependency : Option (List String))
    (utMeta : List (String × Int)) (endTime : Int) : Except Unit Bool :=
  match dependency with
  | none => .ok true
  | some deps => depCheckLoop deps utMeta endTime

/-- One registry entry as consumed by `update_all`: the data description
plus the run-relevant outcomes of its external collaborators —
whether `in_test` is set, whether `calc_method` returns without raising,
and whether `insert_data` reports success. -/
structure DataMsg where
  dd : DataDescription
  inTest : Bool
  calcOk : Bool
  insertOk : Bool
deriving DecidableEq, Repr

/-- `update_single_data` (operator.py lines 75-105): a raising
`calc_method` is caught and yields `False` with the watermark untouched;
otherwise the insert outcome is returned, and only a successful insert
writes `ut_meta[name] = end_time`. -/
def update_single_data (msg : DataMsg) (startTime endTime : Int)
    (utMeta : List (String × Int)) : Bool × List (String × Int) :=
  if !msg.calcOk then (false, utMeta)
  else
    (msg.insertOk,
      if msg.insertOk then setMeta utMeta msg.dd.name endTime else utMeta)

/-- The orchestrator state: the in-memory watermark map, the watermark
map as last flushed to disk by `dump_metadata`, and the running overall
result. -/
structure UpdState where
  utMeta : List (String × Int)
  disk : List (String × Int)
  updateResult : Bool
deriving DecidableEq, Repr

/-- The per-dataset body of `update_all`'s loop (operator.py lines
190-211): skip test data; skip (or abort on `KeyError`) according to the
dependency check; skip an up-to-date dataset; otherwise recompute and
persist, flushing the whole watermark map to disk exactly when the
per-dataset update succeeded, and downgrading the overall result
otherwise. -/
def updStep (endTime defaultStart : Int) (s : UpdState) (msg : DataMsg) :
    Except Unit UpdState :=
  if msg.inTest then .ok s
  else
    match is_dependency_updated msg.dd.dependency s.utMeta endTime with
    | .error e => .error e
    | .ok false => .ok s
    | .ok true =>
        let startTime := (lookupMeta s.utMeta msg.dd.name).getD defaultStart
        if startTime ≥ endTime then .ok s
        else
          let res := update_single_data msg startTime endTime s.utMeta
          if res.1 then
            .ok { utMeta := res.2, disk := res.2,
                  updateResult := s.updateResult }
          else
            .ok { utMeta := res.2, disk := s.disk, updateResult := false }

/-- The loop of `update_all` over the externally supplied dependency
order; an uncaught exception aborts the remaining datasets. -/
def runAll (endTime defaultStart : Int) :
    List DataMsg → UpdState → Except Unit UpdState
  | [], s => .ok s
  | m :: rest, s =>
      match updStep endTime defaultStart s m with
      | .error e => .error e
      | .ok s2 => runAll endTime defaultStart rest s2

/-- `update_all` (operator.py lines 163-215) on an initial watermark map:
run every dataset once in the given order starting from a clean overall
result, returning the final overall boolean (the disk state equals the
initial map until a first successful write). -/
def update_all (endTime defaultStart : Int) (order : List DataMsg)
    (initMeta : List (String × Int)) : Except Unit Bool :=
  match runAll endTime defaultStart order
      { utMeta := initMeta, disk := initMeta, updateResult := true } with
  | .error e => .error e
  | .ok s => .ok s.updateResult

/- ## Concrete example data used by the witness theorems -/

/-- A two-row panel unit covering times 2..3. -/
def exA1 : DataWrapper := .panel [1] [(2, [some 5]), (3, [some 6])]

/-- A two-row panel unit covering times 1..2, with a different symbol. -/
def exB1 : DataWrapper := .panel [7] [(1, [some 8]), (2, [some 9])]

/-- A one-row time series starting after `exB2` — the merge precondition
fails for `update exA2 exB2`. -/
def exA2 : DataWrapper := .tseries [(1, some 1)]

/-- A one-row time series later than `exA2`. -/
def exB2 : DataWrapper := .tseries [(2, some 2)]

/-- A sorted two-row time series covering times 1..2. -/
def exA3 : DataWrapper := .tseries [(1, some 0), (2, some 3)]

/-- A time series with a duplicated time index. -/
def exB3 : DataWrapper := .tseries [(1, some 1), (1, some 2)]

/-- A small well-formed serialized catalog tree. -/
def exTree : MetaTree :=
  .node "db"
    [.leaf "d1" ["STRUCTURED", "CHAR", "PANEL"],
      .node "folder" [.leaf "d2" ["STRUCTURED", "NUMERIC", "TIME_SERIES"]]]

/-- A registry entry whose recompute and insert both succeed. -/
def exMsg1 : DataMsg :=
  { dd := { name := "A", dependency := some [] }, inTest := false,
    calcOk := true, insertOk := true }

/- # Theorems -/

/- ## General list lemmas used by the merge proofs -/

theorem sorted_head_le (a t : Int) (l : List Int)
    (h : (a :: l).Pairwise (fun x y => x ≤ y)) (ht : t ∈ a :: l) : a ≤ t := by
  rcases List.mem_cons.mp ht with h1 | h1
  · exact le_of_eq h1.symm
  · exact (List.pairwise_cons.mp h).1 t h1

theorem sorted_headD_le (l : List Int) (h : l.Pairwise (fun x y => x ≤ y))
    (t : Int) (ht : t ∈ l) : l.headD 0 ≤ t := by
  cases l with
  | nil => cases ht
  | cons a l => exact sorted_head_le a t l h ht

theorem sorted_le_getLastD (l : List Int) (h : l.Pairwise (fun x y => x ≤ y))
    (t : Int) (ht : t ∈ l) : ∀ d : Int, t ≤ l.getLastD d := by
  induction l generalizing t with
  | nil => cases ht
  | cons a rest ih =>
    intro d
    rw [List.pairwise_cons] at h
    cases rest with
    | nil =>
      rcases List.mem_cons.mp ht with h1 | h1
      · subst h1; rfl
      · cases h1
    | cons b rest2 =>
      have hstep : List.getLastD (a :: b :: rest2) d = List.getLastD (b :: rest2) a := by
        rfl
      rw [hstep]
      rcases List.mem_cons.mp ht with h1 | h1
      · rw [h1]
        exact le_trans (h.1 b (by simp)) (ih h.2 b (by simp) a)
      · exact ih h.2 t h1 a

theorem map_fst_filter {α : Type} (p : Int → Bool) (l : List (Int × α)) :
    (l.filter (fun r => p r.1)).map Prod.fst = (l.map Prod.fst).filter p := by
  induction l with
  | nil => rfl
  | cons a l ih =>
    by_cases h : p a.1 <;> simp [List.filter_cons, h, ih]

theorem find?_map_fst {α β : Type} (g : Int × α → Int × β)
    (hg : ∀ r, (g r).1 = r.1) (t : Int) (l : List (Int × α)) :
    (l.map g).find? (fun r => r.1 = t) = (l.find? (fun r => r.1 = t)).map g := by
  induction l with
  | nil => rfl
  | cons a l ih =>
    by_cases h : a.1 = t
    · rw [List.map_cons, List.find?_cons_of_pos _ (by simp [hg, h]),
        List.find?_cons_of_pos _ (by simp [h])]
      rfl
    · rw [List.map_cons, List.find?_cons_of_neg _ (by simp [hg, h]),
        List.find?_cons_of_neg _ (by simp [h])]
      exact ih

theorem find?_append_left {α : Type} (p : α → Bool) (l1 l2 : List α)
    (h : (l1.find? p).isSome) : (l1 ++ l2).find? p = l1.find? p := by
  induction l1 with
  | nil => simp [List.find?] at h
  | cons a l ih =>
    by_cases hp : p a
    · rw [List.cons_append, List.find?_cons_of_pos _ hp, List.find?_cons_of_pos _ hp]
    · rw [List.find?_cons_of_neg _ hp] at h
      rw [List.cons_append, List.find?_cons_of_neg _ hp, List.find?_cons_of_neg _ hp]
      exact ih h

theorem find?_append_none {α : Type} (p : α → Bool) (l1 l2 : List α)
    (h : l1.find? p = none) : (l1 ++ l2).find? p = l2.find? p := by
  induction l1 with
  | nil => rfl
  | cons a l ih =>
    by_cases hp : p a
    · rw [List.find?_cons_of_pos _ hp] at h
      cases h
    · rw [List.find?_cons_of_neg _ hp] at h
      rw [List.cons_append, List.find?_cons_of_neg _ hp]
      exact ih h

theorem find?_filter {α : Type} (p q : α → Bool) (l : List α)
    (hpq : ∀ x, p x = true → q x = true) :
    (l.filter q).find? p = l.find? p := by
  induction l with
  | nil => rfl
  | cons a l ih =>
    by_cases hp : p a
    · rw [List.filter_cons, if_pos (hpq a hp), List.find?_cons_of_pos _ hp,
        List.find?_cons_of_pos _ hp]
    · rw [List.find?_cons_of_neg _ hp, List.filter_cons]
      by_cases hq : q a
      · rw [if_pos hq, List.find?_cons_of_neg _ hp]
        exact ih
      · rw [if_neg hq]
        exact ih

theorem lookupVal_map (CC : List Nat) (f : Nat → Option Int) (c : Nat)
    (hc : c ∈ CC) : lookupVal CC (CC.map f) c = f c := by
  induction CC with
  | nil => cases hc
  | cons d ds ih =>
    simp only [List.map_cons, lookupVal]
    by_cases h : d = c
    · subst h; simp
    · rw [if_neg h]
      rcases List.mem_cons.mp hc with h1 | h1
      · exact absurd h1.symm h
      · exact ih h1

theorem mem_insertSorted (x y : Nat) (l : List Nat) :
    x ∈ insertSorted y l ↔ x = y ∨ x ∈ l := by
  induction l with
  | nil => simp [insertSorted]
  | cons a l ih =>
    simp only [insertSorted]
    by_cases h : y ≤ a
    · rw [if_pos h]; simp
    · rw [if_neg h]
      simp [ih]
      tauto

theorem sorted_insertSorted (y : Nat) (l : List Nat)
    (h : l.Pairwise (fun a b => a ≤ b)) :
    (insertSorted y l).Pairwise (fun a b => a ≤ b) := by
  induction l with
  | nil => simp [insertSorted]
  | cons a l ih =>
    rw [List.pairwise_cons] at h
    simp only [insertSorted]
    by_cases hya : y ≤ a
    · rw [if_pos hya, List.pairwise_cons]
      refine ⟨?_, List.pairwise_cons.mpr h⟩
      intro b hb
      rcases List.mem_cons.mp hb with h1 | h1
      · omega
      · exact le_trans hya (h.1 b h1)
    · rw [if_neg hya, List.pairwise_cons]
      refine ⟨?_, ih h.2⟩
      intro b hb
      rcases (mem_insertSorted b y l).mp hb with h1 | h1
      · omega
      · exact h.1 b h1

theorem mem_sortAsc (x : Nat) (l : List Nat) : x ∈ sortAsc l ↔ x ∈ l := by
  induction l with
  | nil => simp [sortAsc]
  | cons a l ih =>
    show x ∈ insertSorted a (sortAsc l) ↔ _
    rw [mem_insertSorted, ih]
    simp

theorem sorted_sortAsc (l : List Nat) :
    (sortAsc l).Pairwise (fun a b => a ≤ b) := by
  induction l with
  | nil => simp [sortAsc]
  | cons a l ih => exact sorted_insertSorted a (sortAsc l) ih

theorem nodup_insertSorted (y : Nat) (l : List Nat) (hy : y ∉ l)
    (h : l.Nodup) : (insertSorted y l).Nodup := by
  induction l with
  | nil => simp [insertSorted]
  | cons a l ih =>
    rw [List.nodup_cons] at h
    simp only [insertSorted]
    by_cases hya : y ≤ a
    · rw [if_pos hya, List.nodup_cons, List.nodup_cons]
      exact ⟨hy, h.1, h.2⟩
    · rw [if_neg hya, List.nodup_cons]
      constructor
      · intro hmem
        rcases (mem_insertSorted a y l).mp hmem with h1 | h1
        · exact hy (by simp [h1])
        · exact h.1 h1
      · exact ih (fun hm => hy (List.mem_cons_of_mem a hm)) h.2

theorem nodup_sortAsc (l : List Nat) (h : l.Nodup) : (sortAsc l).Nodup := by
  induction l with
  | nil => simp [sortAsc]
  | cons a l ih =>
    rw [List.nodup_cons] at h
    exact nodup_insertSorted a (sortAsc l)
      (fun hm => h.1 ((mem_sortAsc a l).mp hm)) (ih h.2)

theorem pairwise_lt_of_le_nodup (l : List Nat)
    (h1 : l.Pairwise (fun a b => a ≤ b)) (h2 : l.Nodup) :
    l.Pairwise (fun a b => a < b) :=
  (h1.and h2).imp (fun h => lt_of_le_of_ne h.1 h.2)

/- ## DataWrapper lemmas -/

theorem drop_panel_eq_filter (cols : List Nat)
    (rows : List (Int × List (Option Int))) (date : Int)
    (h : (windex (.panel cols rows)).Pairwise (fun a b => a ≤ b)) :
    drop_before_date (.panel cols rows) date =
      .panel cols (rows.filter (fun r => date < r.1)) := by
  unfold drop_before_date
  by_cases hd : date < start_time (DataWrapper.panel cols rows)
  · rw [if_pos hd]
    have hself : rows.filter (fun r => date < r.1) = rows := by
      rw [List.filter_eq_self]
      intro r hr
      have hmem : r.1 ∈ windex (.panel cols rows) := List.mem_map_of_mem Prod.fst hr
      have := sorted_headD_le _ h r.1 hmem
      simp only [start_time] at hd
      simp only [decide_eq_true_eq]
      omega
    rw [hself]
  · rw [if_neg hd]

theorem drop_tseries_eq_filter (rows : List (Int × Option Int)) (date : Int)
    (h : (windex (.tseries rows)).Pairwise (fun a b => a ≤ b)) :
    drop_before_date (.tseries rows) date =
      .tseries (rows.filter (fun r => date < r.1)) := by
  unfold drop_before_date
  by_cases hd : date < start_time (DataWrapper.tseries rows)
  · rw [if_pos hd]
    have hself : rows.filter (fun r => date < r.1) = rows := by
      rw [List.filter_eq_self]
      intro r hr
      have hmem : r.1 ∈ windex (.tseries rows) := List.mem_map_of_mem Prod.fst hr
      have := sorted_headD_le _ h r.1 hmem
      simp only [start_time] at hd
      simp only [decide_eq_true_eq]
      omega
    rw [hself]
  · rw [if_neg hd]

theorem rearrange_fst (cols : List Nat) (rows : List (Int × List (Option Int)))
    (order : List Nat) :
    (rearrange_symbol cols rows order).2.map Prod.fst = rows.map Prod.fst := by
  unfold rearrange_symbol
  by_cases h : cols = order
  · rw [if_pos h]
  · rw [if_neg h]
    simp

theorem rearrange_cols (cols : List Nat) (rows : List (Int × List (Option Int)))
    (order : List Nat) :
    (rearrange_symbol cols rows order).1 =
      order ++ sortAsc (cols.filter (fun c => !(order.contains c))) := by
  unfold rearrange_symbol
  by_cases h : cols = order
  · rw [if_pos h]
    subst h
    have hnil : cols.filter (fun c => !(cols.contains c)) = [] := by
      rw [List.filter_eq_nil_iff]
      intro c hc
      simp [hc]
    rw [hnil]
    simp [sortAsc]
  · rw [if_neg h]

theorem rearrange_cellLookup (cols : List Nat)
    (rows : List (Int × List (Option Int))) (order : List Nat)
    (t : Int) (c : Nat) (hc : c ∈ cols) :
    ((rearrange_symbol cols rows order).2.find? (fun r => r.1 = t)).map
        (fun r => lookupVal (rearrange_symbol cols rows order).1 r.2 c) =
      (rows.find? (fun r => r.1 = t)).map (fun r => lookupVal cols r.2 c) := by
  unfold rearrange_symbol
  by_cases h : cols = order
  · rw [if_pos h]
  · rw [if_neg h]
    simp only
    have hmemCC : c ∈ order ++ sortAsc (cols.filter (fun c => !(order.contains c))) := by
      by_cases ho : c ∈ order
      · exact List.mem_append_left _ ho
      · refine List.mem_append_right _ ?_
        rw [mem_sortAsc]
        rw [List.mem_filter]
        refine ⟨hc, ?_⟩
        simp [ho]
    rw [find?_map_fst (fun r => (r.1, reindexRow cols
      (order ++ sortAsc (cols.filter (fun c => !(order.contains c)))) r.2))
      (fun r => rfl) t rows]
    cases hfind : rows.find? (fun r => r.1 = t) with
    | none => rfl
    | some r =>
      simp only [Option.map_some']
      congr 1
      exact lookupVal_map _ (fun x => lookupVal cols r.2 x) c hmemCC

theorem find?_isSome_of_mem_fst {α : Type} (l : List (Int × α)) (t : Int)
    (h : t ∈ l.map Prod.fst) : (l.find? (fun r => r.1 = t)).isSome := by
  induction l with
  | nil => cases h
  | cons a l ih =>
    by_cases h1 : a.1 = t
    · rw [List.find?_cons_of_pos _ (by simp [h1])]
      rfl
    · rw [List.find?_cons_of_neg _ (by simp [h1])]
      apply ih
      rcases List.mem_cons.mp h with h2 | h2
      · exact absurd h2.symm h1
      · exact h2

theorem update_merge_panel (acols bcols : List Nat)
    (arows brows : List (Int × List (Option Int)))
    (hA : WFWrapper (.panel acols arows)) (hB : WFWrapper (.panel bcols brows))
    (h1 : start_time (.panel bcols brows) ≤ start_time (.panel acols arows))
    (h2 : start_time (.panel acols arows) ≤ end_time (.panel bcols brows))
    (h3 : end_time (.panel bcols brows) ≤ end_time (.panel acols arows))
    (hdisj : (windex (.panel bcols brows) ++
        (windex (.panel acols arows)).filter
          (fun t => end_time (.panel bcols brows) < t)).Nodup) :
    ∃ C, update (.panel acols arows) (.panel bcols brows) = .merged C ∧
      windex C = windex (.panel bcols brows) ++
        (windex (.panel acols arows)).filter
          (fun t => end_time (.panel bcols brows) < t) ∧
      (windex C).Pairwise (fun a b => a < b) ∧
      (∀ t ∈ windex (.panel bcols brows), ∀ c ∈ colsOf (.panel bcols brows),
        cellAt C t c = cellAt (.panel bcols brows) t c) ∧
      (∀ t ∈ windex (.panel bcols brows), valAt C t = valAt (.panel bcols brows) t) ∧
      (∀ t ∈ windex (.panel acols arows), end_time (.panel bcols brows) < t →
        ∀ c ∈ colsOf (.panel acols arows),
          cellAt C t c = cellAt (.panel acols arows) t c) ∧
      (∀ t ∈ windex (.panel acols arows), end_time (.panel bcols brows) < t →
        valAt C t = valAt (.panel acols arows) t) ∧
      (data_category (.panel acols arows) = .PANEL →
        ∃ diff, colsOf C = colsOf (.panel bcols brows) ++ diff ∧
          diff.Pairwise (fun a b => a < b) ∧
          ∀ c, c ∈ diff ↔ (c ∈ colsOf (.panel acols arows) ∧
            c ∉ colsOf (.panel bcols brows))) := by
  have hAs : (windex (DataWrapper.panel acols arows)).Pairwise (fun a b => a ≤ b) :=
    hA.2.1.imp (fun h => le_of_lt h)
  have hBs : (windex (DataWrapper.panel bcols brows)).Pairwise (fun a b => a ≤ b) :=
    hB.2.1.imp (fun h => le_of_lt h)
  set eB := end_time (DataWrapper.panel bcols brows) with heB
  set trimmed := arows.filter (fun r => eB < r.1) with htr
  set sres := rearrange_symbol acols trimmed bcols with hsres
  set ores := rearrange_symbol bcols brows sres.1 with hores
  have hofst : ores.2.map Prod.fst = windex (DataWrapper.panel bcols brows) := by
    rw [hores, rearrange_fst]
    rfl
  have hsfst : sres.2.map Prod.fst =
      (windex (DataWrapper.panel acols arows)).filter (fun t => eB < t) := by
    rw [hsres, rearrange_fst, htr]
    exact map_fst_filter (fun x => decide (eB < x)) arows
  have hsres1 : sres.1 =
      bcols ++ sortAsc (acols.filter (fun c => !(bcols.contains c))) := by
    rw [hsres, rearrange_cols]
  have hcolsC : ores.1 = sres.1 := by
    rw [hores, rearrange_cols]
    have hnil : bcols.filter (fun c => !(sres.1.contains c)) = [] := by
      rw [List.filter_eq_nil_iff]
      intro c hc
      have hmem : c ∈ sres.1 := by
        rw [hsres1]
        exact List.mem_append_left _ hc
      simp [hmem]
    rw [hnil]
    simp [sortAsc]
  have hfst : (ores.2 ++ sres.2).map Prod.fst =
      windex (DataWrapper.panel bcols brows) ++
        (windex (DataWrapper.panel acols arows)).filter (fun t => eB < t) := by
    rw [List.map_append, hofst, hsfst]
  have hnd : ((ores.2 ++ sres.2).map Prod.fst).Nodup := by
    rw [hfst]
    exact hdisj
  have hupd : update (.panel acols arows) (.panel bcols brows) =
      .merged (.panel ores.1 (ores.2 ++ sres.2)) := by
    unfold update
    rw [if_neg (by simp [data_category] :
      ¬(data_category (DataWrapper.panel acols arows) ≠
        data_category (DataWrapper.panel bcols brows)))]
    rw [if_neg (not_not_intro ⟨h1, h2, h3⟩)]
    rw [drop_panel_eq_filter acols arows eB hAs]
    dsimp only
    rw [← htr, ← hsres, ← hores]
    rw [if_neg (not_not_intro hnd)]
  refine ⟨.panel ores.1 (ores.2 ++ sres.2), hupd, ?_, ?_, ?_, ?_, ?_, ?_, ?_⟩
  · show (ores.2 ++ sres.2).map Prod.fst = _
    exact hfst
  · show ((ores.2 ++ sres.2).map Prod.fst).Pairwise (fun a b => a < b)
    rw [hfst, List.pairwise_append]
    refine ⟨hB.2.1, hA.2.1.filter _, ?_⟩
    intro a ha b hb
    have hale : a ≤ eB := sorted_le_getLastD _ hBs a ha 0
    have hbgt : eB < b := by
      have := (List.mem_filter.mp hb).2
      simp only [decide_eq_true_eq] at this
      exact this
    omega
  · intro t ht c hc
    simp only [colsOf] at hc
    simp only [cellAt]
    have hsome : (ores.2.find? (fun r => r.1 = t)).isSome :=
      find?_isSome_of_mem_fst _ t (by rw [hofst]; exact ht)
    rw [find?_append_left _ _ _ hsome, hores,
      rearrange_cellLookup bcols brows sres.1 t c hc]
  · intro t _
    simp [valAt]
  · intro t ht hgt c hc
    simp only [colsOf] at hc
    simp only [cellAt]
    have hnone : ores.2.find? (fun r => r.1 = t) = none := by
      rw [List.find?_eq_none]
      intro x hx
      have hx1 : x.1 ∈ windex (DataWrapper.panel bcols brows) := by
        rw [← hofst]
        exact List.mem_map_of_mem Prod.fst hx
      have hle : x.1 ≤ eB := sorted_le_getLastD _ hBs x.1 hx1 0
      simp only [decide_eq_true_eq]
      omega
    rw [hcolsC, find?_append_none _ _ _ hnone, hsres,
      rearrange_cellLookup acols trimmed bcols t c hc, htr,
      find?_filter _ _ _ (fun x hx => by
        simp only [decide_eq_true_eq] at hx ⊢
        omega)]
  · intro t _ _
    simp [valAt]
  · intro _
    refine ⟨sortAsc (acols.filter (fun c => !(bcols.contains c))), ?_, ?_, ?_⟩
    · show ores.1 = bcols ++ _
      rw [hcolsC, hsres1]
    · exact pairwise_lt_of_le_nodup _ (sorted_sortAsc _)
        (nodup_sortAsc _ (hA.2.2.filter _))
    · intro c0
      rw [mem_sortAsc, List.mem_filter]
      simp [colsOf]

theorem update_merge_tseries (arows brows : List (Int × Option Int))
    (hA : WFWrapper (.tseries arows)) (hB : WFWrapper (.tseries brows))
    (h1 : start_time (.tseries brows) ≤ start_time (.tseries arows))
    (h2 : start_time (.tseries arows) ≤ end_time (.tseries brows))
    (h3 : end_time (.tseries brows) ≤ end_time (.tseries arows))
    (hdisj : (windex (.tseries brows) ++
        (windex (.tseries arows)).filter
          (fun t => end_time (.tseries brows) < t)).Nodup) :
    ∃ C, update (.tseries arows) (.tseries brows) = .merged C ∧
      windex C = windex (.tseries brows) ++
        (windex (.tseries arows)).filter
          (fun t => end_time (.tseries brows) < t) ∧
      (windex C).Pairwise (fun a b => a < b) ∧
      (∀ t ∈ windex (.tseries brows), ∀ c ∈ colsOf (.tseries brows),
        cellAt C t c = cellAt (.tseries brows) t c) ∧
      (∀ t ∈ windex (.tseries brows), valAt C t = valAt (.tseries brows) t) ∧
      (∀ t ∈ windex (.tseries arows), end_time (.tseries brows) < t →
        ∀ c ∈ colsOf (.tseries arows),
          cellAt C t c = cellAt (.tseries arows) t c) ∧
      (∀ t ∈ windex (.tseries arows), end_time (.tseries brows) < t →
        valAt C t = valAt (.tseries arows) t) ∧
      (data_category (.tseries arows) = .PANEL →
        ∃ diff, colsOf C = colsOf (.tseries brows) ++ diff ∧
          diff.Pairwise (fun a b => a < b) ∧
          ∀ c, c ∈ diff ↔ (c ∈ colsOf (.tseries arows) ∧
            c ∉ colsOf (.tseries brows))) := by
  have hAs : (windex (DataWrapper.tseries arows)).Pairwise (fun a b => a ≤ b) :=
    hA.2.1.imp (fun h => le_of_lt h)
  have hBs : (windex (DataWrapper.tseries brows)).Pairwise (fun a b => a ≤ b) :=
    hB.2.1.imp (fun h => le_of_lt h)
  set eB := end_time (DataWrapper.tseries brows) with heB
  set trimmed := arows.filter (fun r => eB < r.1) with htr
  have hsfst : trimmed.map Prod.fst =
      (windex (DataWrapper.tseries arows)).filter (fun t => eB < t) := by
    rw [htr]
    exact map_fst_filter (fun x => decide (eB < x)) arows
  have hfst : (brows ++ trimmed).map Prod.fst =
      windex (DataWrapper.tseries brows) ++
        (windex (DataWrapper.tseries arows)).filter (fun t => eB < t) := by
    rw [List.map_append, hsfst]
    rfl
  have hnd : ((brows ++ trimmed).map Prod.fst).Nodup := by
    rw [hfst]
    exact hdisj
  have hupd : update (.tseries arows) (.tseries brows) =
      .merged (.tseries (brows ++ trimmed)) := by
    unfold update
    rw [if_neg (by simp [data_category] :
      ¬(data_category (DataWrapper.tseries arows) ≠
        data_category (DataWrapper.tseries brows)))]
    rw [if_neg (not_not_intro ⟨h1, h2, h3⟩)]
    rw [drop_tseries_eq_filter arows eB hAs]
    dsimp only
    rw [← htr]
    rw [if_neg (not_not_intro hnd)]
  refine ⟨.tseries (brows ++ trimmed), hupd, ?_, ?_, ?_, ?_, ?_, ?_, ?_⟩
  · show (brows ++ trimmed).map Prod.fst = _
    exact hfst
  · show ((brows ++ trimmed).map Prod.fst).Pairwise (fun a b => a < b)
    rw [hfst, List.pairwise_append]
    refine ⟨hB.2.1, hA.2.1.filter _, ?_⟩
    intro a ha b hb
    have hale : a ≤ eB := sorted_le_getLastD _ hBs a ha 0
    have hbgt : eB < b := by
      have := (List.mem_filter.mp hb).2
      simp only [decide_eq_true_eq] at this
      exact this
    omega
  · intro t _ c hc
    simp only [colsOf] at hc
    cases hc
  · intro t ht
    simp only [valAt]
    have hsome : (brows.find? (fun r => r.1 = t)).isSome :=
      find?_isSome_of_mem_fst _ t ht
    rw [find?_append_left _ _ _ hsome]
  · intro t _ _ c hc
    simp only [colsOf] at hc
    cases hc
  · intro t ht hgt
    simp only [valAt]
    have hnone : brows.find? (fun r => r.1 = t) = none := by
      rw [List.find?_eq_none]
      intro x hx
      have hx1 : x.1 ∈ windex (DataWrapper.tseries brows) :=
        List.mem_map_of_mem Prod.fst hx
      have hle : x.1 ≤ eB := sorted_le_getLastD _ hBs x.1 hx1 0
      simp only [decide_eq_true_eq]
      omega
    rw [find?_append_none _ _ _ hnone, htr,
      find?_filter _ _ _ (fun x hx => by
        simp only [decide_eq_true_eq] at hx ⊢
        omega)]
  · intro h
    simp [data_category] at h

/- ## Merge claims -/

/-- C1: For units `A` and `B` of the same data category satisfying
`B.start ≤ A.start ≤ B.end ≤ A.end`, with disjoint indices after dropping
from `A` every row with time on or before `B.end`, `A.update(B)` merges
into a unit whose time index is strictly increasing with no duplicates,
in which every row with time ≤ `B.end` originates from `B` (its cells at
`B`'s symbols, and its time-series value, are `B`'s) and every row with
time > `B.end` is the corresponding original row of `A`; for panel data
the column order is `B`'s order followed by the symbols unique to `A` in
ascending sort order. -/
theorem update_merge_invariant (A B : DataWrapper)
    (hcat : data_category A = data_category B)
    (hA : WFWrapper A) (hB : WFWrapper B)
    (h1 : start_time B ≤ start_time A) (h2 : start_time A ≤ end_time B)
    (h3 : end_time B ≤ end_time A)
    (hdisj : (windex B ++ (windex A).filter (fun t => end_time B < t)).Nodup) :
    ∃ C, update A B = .merged C ∧
      windex C = windex B ++ (windex A).filter (fun t => end_time B < t) ∧
      (windex C).Pairwise (fun a b => a < b) ∧
      (∀ t ∈ windex B, ∀ c ∈ colsOf B, cellAt C t c = cellAt B t c) ∧
      (∀ t ∈ windex B, valAt C t = valAt B t) ∧
      (∀ t ∈ windex A, end_time B < t →
        ∀ c ∈ colsOf A, cellAt C t c = cellAt A t c) ∧
      (∀ t ∈ windex A, end_time B < t → valAt C t = valAt A t) ∧
      (data_category A = .PANEL →
        ∃ diff, colsOf C = colsOf B ++ diff ∧
          diff.Pairwise (fun a b => a < b) ∧
          ∀ c, c ∈ diff ↔ (c ∈ colsOf A ∧ c ∉ colsOf B)) := by
  cases A with
  | panel acols arows =>
    cases B with
    | panel bcols brows =>
      exact update_merge_panel acols bcols arows brows hA hB h1 h2 h3 hdisj
    | tseries brows => simp [data_category] at hcat
  | tseries arows =>
    cases B with
    | panel bcols brows => simp [data_category] at hcat
    | tseries brows =>
      exact update_merge_tseries arows brows hA hB h1 h2 h3 hdisj

/-- Witness for C1 at the concrete units `exA1`, `exB1`. -/
theorem update_merge_invariant_witness :
    (data_category exA1 = data_category exB1 ∧ WFWrapper exA1 ∧ WFWrapper exB1 ∧
      start_time exB1 ≤ start_time exA1 ∧ start_time exA1 ≤ end_time exB1 ∧
      end_time exB1 ≤ end_time exA1 ∧
      (windex exB1 ++ (windex exA1).filter (fun t => end_time exB1 < t)).Nodup) ∧
    (∃ C, update exA1 exB1 = .merged C ∧
      windex C = windex exB1 ++ (windex exA1).filter (fun t => end_time exB1 < t) ∧
      (windex C).Pairwise (fun a b => a < b) ∧
      (∀ t ∈ windex exB1, ∀ c ∈ colsOf exB1, cellAt C t c = cellAt exB1 t c) ∧
      (∀ t ∈ windex exB1, valAt C t = valAt exB1 t) ∧
      (∀ t ∈ windex exA1, end_time exB1 < t →
        ∀ c ∈ colsOf exA1, cellAt C t c = cellAt exA1 t c) ∧
      (∀ t ∈ windex exA1, end_time exB1 < t → valAt C t = valAt exA1 t) ∧
      (data_category exA1 = .PANEL →
        ∃ diff, colsOf C = colsOf exB1 ++ diff ∧
          diff.Pairwise (fun a b => a < b) ∧
          ∀ c, c ∈ diff ↔ (c ∈ colsOf exA1 ∧ c ∉ colsOf exB1))) :=
  ⟨⟨by decide, by decide, by decide, by decide, by decide, by decide, by decide⟩,
    update_merge_invariant exA1 exB1 (by decide) (by decide) (by decide)
      (by decide) (by decide) (by decide) (by decide)⟩

/-- C2: when the merge precondition fails for same-category units,
`A.update(B)` leaves `A` unchanged and only raises a warning — the
outcome is `skipped A`, never an error. -/
theorem update_skip_warning (A B : DataWrapper)
    (hcat : data_category A = data_category B)
    (hA : windex A ≠ []) (hB : windex B ≠ [])
    (hpre : ¬(start_time B ≤ start_time A ∧ start_time A ≤ end_time B ∧
      end_time B ≤ end_time A)) :
    update A B = .skipped A := by
  unfold update
  rw [if_neg (not_not_intro hcat), if_pos hpre]

/-- Witness for C2 at the concrete units `exA2`, `exB2`. -/
theorem update_skip_warning_witness :
    (data_category exA2 = data_category exB2 ∧ windex exA2 ≠ [] ∧
      windex exB2 ≠ [] ∧
      ¬(start_time exB2 ≤ start_time exA2 ∧ start_time exA2 ≤ end_time exB2 ∧
        end_time exB2 ≤ end_time exA2)) ∧
    update exA2 exB2 = .skipped exA2 :=
  ⟨⟨by decide, by decide, by decide, by decide⟩,
    update_skip_warning exA2 exB2 (by decide) (by decide) (by decide) (by decide)⟩

/-- C3: when the merge precondition holds but concatenating `B`'s rows
before `A`'s trimmed rows produces a duplicated time index, `update`
raises the duplicate-index error and never deduplicates. -/
theorem update_duplicate_index (A B : DataWrapper)
    (hcat : data_category A = data_category B)
    (hsortA : (windex A).Pairwise (fun a b => a ≤ b))
    (h1 : start_time B ≤ start_time A) (h2 : start_time A ≤ end_time B)
    (h3 : end_time B ≤ end_time A)
    (hdup : ¬(windex B ++ (windex A).filter (fun t => end_time B < t)).Nodup) :
    update A B = .dupIndexError := by
  cases A with
  | panel acols arows =>
    cases B with
    | panel bcols brows =>
      unfold update
      rw [if_neg (not_not_intro hcat), if_neg (not_not_intro ⟨h1, h2, h3⟩),
        drop_panel_eq_filter acols arows _ hsortA]
      dsimp only
      set eB := end_time (DataWrapper.panel bcols brows) with heB
      set trimmed := arows.filter (fun r => eB < r.1) with htr
      set sres := rearrange_symbol acols trimmed bcols with hsres
      set ores := rearrange_symbol bcols brows sres.1 with hores
      have hfst : (ores.2 ++ sres.2).map Prod.fst =
          windex (DataWrapper.panel bcols brows) ++
            (windex (DataWrapper.panel acols arows)).filter (fun t => eB < t) := by
        rw [List.map_append, hores, rearrange_fst, hsres, rearrange_fst, htr]
        show _ ++ (arows.filter (fun r => decide (eB < r.1))).map Prod.fst = _
        rw [map_fst_filter (fun x => decide (eB < x)) arows]
        rfl
      rw [if_pos (fun h => hdup (hfst ▸ h))]
    | tseries brows => simp [data_category] at hcat
  | tseries arows =>
    cases B with
    | panel bcols brows => simp [data_category] at hcat
    | tseries brows =>
      unfold update
      rw [if_neg (not_not_intro hcat), if_neg (not_not_intro ⟨h1, h2, h3⟩),
        drop_tseries_eq_filter arows _ hsortA]
      dsimp only
      set eB := end_time (DataWrapper.tseries brows) with heB
      have hfst : (brows ++ arows.filter (fun r => eB < r.1)).map Prod.fst =
          windex (DataWrapper.tseries brows) ++
            (windex (DataWrapper.tseries arows)).filter (fun t => eB < t) := by
        rw [List.map_append, map_fst_filter (fun x => decide (eB < x)) arows]
        rfl
      rw [if_pos (fun h => hdup (hfst ▸ h))]

/-- Witness for C3 at the concrete units `exA3`, `exB3`. -/
theorem update_duplicate_index_witness :
    (data_category exA3 = data_category exB3 ∧
      (windex exA3).Pairwise (fun a b => a ≤ b) ∧
      start_time exB3 ≤ start_time exA3 ∧ start_time exA3 ≤ end_time exB3 ∧
      end_time exB3 ≤ end_time exA3 ∧
      ¬(windex exB3 ++ (windex exA3).filter (fun t => end_time exB3 < t)).Nodup) ∧
    update exA3 exB3 = .dupIndexError :=
  ⟨⟨by decide, by decide, by decide, by decide, by decide, by decide⟩,
    update_duplicate_index exA3 exB3 (by decide) (by decide) (by decide)
      (by decide) (by decide) (by decide)⟩

/- ## Classification-validation claims -/

theorem mem_dropLast_cons {α : Type} (x c : α) (rest : List α)
    (hx : x ∈ rest.dropLast) : x ∈ (c :: rest).dropLast := by
  cases rest with
  | nil => cases hx
  | cons r rs =>
    rw [List.dropLast_cons₂]
    exact List.mem_cons_of_mem c hx

theorem self_mem_dropLast_cons {α : Type} (c r : α) (rs : List α) :
    c ∈ (c :: r :: rs).dropLast := by
  rw [List.dropLast_cons₂]
  exact List.mem_cons_self c _

theorem allowedPair_rule : ∀ last c : Cate, last ≠ .pyNone →
    allowedPair last c = true →
    (storeRule last).isSome = true ∧ c ∈ (storeRule last).getD [] := by
  decide

theorem rule_allowedPair : ∀ last c : Cate, last ≠ .pyNone →
    (storeRule last).isSome = true →
    (c ∈ (storeRule last).getD [] ↔ allowedPair last c = true) := by
  decide

theorem validateLoop_of_chain : ∀ (l : List Cate) (last : Cate),
    List.Chain' (fun a b => allowedPair a b = true) (last :: l) →
    validateLoop last l = some true := by
  intro l
  induction l with
  | nil => intro last _; rfl
  | cons c rest ih =>
    intro last h
    rw [List.chain'_cons] at h
    obtain ⟨hpair, hrest⟩ := h
    by_cases hl : last = Cate.pyNone
    · simp only [validateLoop, if_pos hl]
      exact ih c hrest
    · obtain ⟨hsome, hmem⟩ := allowedPair_rule last c hl hpair
      obtain ⟨al, hal⟩ := Option.isSome_iff_exists.mp hsome
      rw [hal] at hmem
      simp only [Option.getD_some] at hmem
      simp only [validateLoop, if_neg hl, hal]
      rw [if_pos hmem]
      exact ih c hrest

theorem validateLoop_of_not_chain : ∀ (l : List Cate) (last : Cate),
    last ≠ .pyNone → (storeRule last).isSome = true →
    (∀ x ∈ l.dropLast, x ≠ Cate.pyNone ∧ (storeRule x).isSome = true) →
    ¬ List.Chain' (fun a b => allowedPair a b = true) (last :: l) →
    validateLoop last l = some false := by
  intro l
  induction l with
  | nil =>
    intro last _ _ _ hnc
    exact absurd (List.chain'_singleton last) hnc
  | cons c rest ih =>
    intro last hl hsome hside hnc
    obtain ⟨al, hal⟩ := Option.isSome_iff_exists.mp hsome
    by_cases hmem : c ∈ al
    · have hpair : allowedPair last c = true := by
        have := rule_allowedPair last c hl hsome
        rw [hal] at this
        exact this.mp (by simpa using hmem)
      have hnc2 : ¬ List.Chain' (fun a b => allowedPair a b = true) (c :: rest) :=
        fun h => hnc (List.chain'_cons.mpr ⟨hpair, h⟩)
      cases rest with
      | nil => exact absurd (List.chain'_singleton c) hnc2
      | cons r2 rrest =>
        have hcside : c ≠ Cate.pyNone ∧ (storeRule c).isSome = true :=
          hside c (self_mem_dropLast_cons c r2 rrest)
        simp only [validateLoop, if_neg hl, hal]
        rw [if_pos hmem]
        exact ih c hcside.1 hcside.2
          (fun x hx => hside x (mem_dropLast_cons x c (r2 :: rrest) hx)) hnc2
    · simp only [validateLoop, if_neg hl, hal]
      rw [if_neg hmem]

/-- C4 fails on the code: the tuple `(UNSTRUCTURED, None, PANEL)` violates
the transition table (nothing may follow the terminal `None` except
`None`), yet `validate` returns true, because after a `None` element the
`last_cate is None` first-iteration guard fires again and skips the
adjacency check. -/
theorem validate_skip_counterexample :
    validate [Cate.classification .UNSTRUCTURED, Cate.pyNone,
        Cate.formatCategory .PANEL] = some true ∧
      ¬ tableOk [Cate.classification .UNSTRUCTURED, Cate.pyNone,
        Cate.formatCategory .PANEL] := by
  constructor
  · rfl
  · simp [tableOk, List.chain'_cons, allowedPair]

/-- C4 (amended): `validate` returns true for every tuple obeying the
transition table; and it returns false for every tuple violating the
table provided no element before the last one is the Python `None` or a
terminal category (`PANEL`/`TIME_SERIES`, which are missing from the rule
dictionary and would raise `KeyError`). -/
theorem validate_transition_table :
    (∀ l : List Cate, tableOk l → validate l = some true) ∧
    (∀ l : List Cate,
      (∀ x ∈ l.dropLast, x ≠ Cate.pyNone ∧ (storeRule x).isSome = true) →
      ¬ tableOk l → validate l = some false) := by
  constructor
  · intro l h
    cases l with
    | nil => rfl
    | cons a rest =>
      show validateLoop Cate.pyNone (a :: rest) = some true
      simp only [validateLoop, if_pos rfl]
      exact validateLoop_of_chain rest a h
  · intro l hside hnot
    cases l with
    | nil => exact absurd List.chain'_nil hnot
    | cons a rest =>
      cases rest with
      | nil => exact absurd (List.chain'_singleton a) hnot
      | cons c rrest =>
        have haside : a ≠ Cate.pyNone ∧ (storeRule a).isSome = true :=
          hside a (self_mem_dropLast_cons a c rrest)
        show validateLoop Cate.pyNone (a :: c :: rrest) = some false
        simp only [validateLoop, if_pos rfl]
        exact validateLoop_of_not_chain (c :: rrest) a haside.1 haside.2
          (fun x hx => hside x (mem_dropLast_cons x a (c :: rrest) hx)) hnot

/-- Witness for the amended C4: a valid three-level tuple validates to
true, and the claim's own example (`STRUCTURED` directly followed by
`PANEL`) validates to false. -/
theorem validate_transition_table_witness :
    validate [Cate.classification .STRUCTURED, Cate.valueCategory .CHAR,
        Cate.formatCategory .PANEL] = some true ∧
      validate [Cate.classification .STRUCTURED,
        Cate.formatCategory .PANEL] = some false :=
  ⟨validate_transition_table.1 _
      (by simp [tableOk, List.chain'_cons, allowedPair]),
    validate_transition_table.2 _ (by decide)
      (by simp [tableOk, List.chain'_cons, allowedPair])⟩

/- ## Period-sharding claims -/

theorem filenameLoop_cons (identStr : String) (pad : Nat → String)
    (cyc eY mE sY sM : Nat) (h : sY < eY ∨ (sY = eY ∧ sM ≤ mE)) :
    filenameLoop identStr pad cyc eY mE sY sM =
      (toString sY ++ identStr ++ pad sM) ::
        (if sM + 1 > cyc then filenameLoop identStr pad cyc eY mE (sY + 1) 1
         else filenameLoop identStr pad cyc eY mE sY (sM + 1)) := by
  conv_lhs => rw [filenameLoop]
  rw [dif_pos h]

theorem filenameLoop_nil (identStr : String) (pad : Nat → String)
    (cyc eY mE sY sM : Nat) (h : ¬(sY < eY ∨ (sY = eY ∧ sM ≤ mE))) :
    filenameLoop identStr pad cyc eY mE sY sM = [] := by
  conv_lhs => rw [filenameLoop]
  rw [dif_neg h]

theorem filenameLoop_mem (identStr : String) (pad : Nat → String)
    (cyc eY mE y m sY sM : Nat) (hm1 : 1 ≤ m) (hmc : m ≤ cyc)
    (hend : y < eY ∨ (y = eY ∧ m ≤ mE))
    (hs1 : 1 ≤ sM) (hs2 : sM ≤ cyc)
    (hle : sY < y ∨ (sY = y ∧ sM ≤ m)) :
    (toString y ++ identStr ++ pad m) ∈ filenameLoop identStr pad cyc eY mE sY sM := by
  have hguard : sY < eY ∨ (sY = eY ∧ sM ≤ mE) := by omega
  rw [filenameLoop_cons identStr pad cyc eY mE sY sM hguard]
  by_cases heq : sY = y ∧ sM = m
  · rw [heq.1, heq.2]
    exact List.mem_cons_self _ _
  · apply List.mem_cons_of_mem
    by_cases hov : sM + 1 > cyc
    · rw [if_pos hov]
      exact filenameLoop_mem identStr pad cyc eY mE y m (sY + 1) 1 hm1 hmc hend
        (by omega) (by omega) (by omega)
    · rw [if_neg hov]
      exact filenameLoop_mem identStr pad cyc eY mE y m sY (sM + 1) hm1 hmc hend
        (by omega) (by omega) (by omega)
termination_by (eY + 1 - sY, cyc - sM)
decreasing_by
  · apply Prod.Lex.left
    omega
  · apply Prod.Lex.right
    omega

/-- C5: the period-key functions enumerate exactly as specified: the
documented quarterly examples of `date2filenamelist` and the monthly
example of `date2filename` hold, and for monthly and quarterly sharding
every date inside the inclusive range has its period key in the
enumerated list (the (year, minor) cursor reaches every touched period). -/
theorem period_key_enumeration :
    date2filenamelist .QUARTER ⟨2018, 1, 1⟩ ⟨2018, 4, 1⟩ = ["2018Q1", "2018Q2"] ∧
    date2filenamelist .QUARTER ⟨2017, 1, 1⟩ ⟨2018, 1, 1⟩ =
      ["2017Q1", "2017Q2", "2017Q3", "2017Q4", "2018Q1"] ∧
    date2filename .MONTH ⟨2010, 1, 3⟩ = "201001" ∧
    (∀ s e d : PDate, 1 ≤ s.month → s.month ≤ 12 → 1 ≤ d.month → d.month ≤ 12 →
      dateLE s d → dateLE d e →
      date2filename .MONTH d ∈ date2filenamelist .MONTH s e) ∧
    (∀ s e d : PDate, 1 ≤ s.month → s.month ≤ 12 → 1 ≤ d.month → d.month ≤ 12 →
      dateLE s d → dateLE d e →
      date2filename .QUARTER d ∈ date2filenamelist .QUARTER s e) := by
  refine ⟨?_, ?_, ?_, ?_, ?_⟩
  · show filenameLoop "Q" (fun n => toString n) 4 2018 2 2018 1 = _
    rw [filenameLoop_cons _ _ _ _ _ _ _ (by omega),
      if_neg (by omega : ¬(1 + 1 > 4)),
      filenameLoop_cons _ _ _ _ _ _ _ (by omega),
      if_neg (by omega : ¬(2 + 1 > 4)),
      filenameLoop_nil _ _ _ _ _ _ _ (by omega)]
    decide
  · show filenameLoop "Q" (fun n => toString n) 4 2018 1 2017 1 = _
    rw [filenameLoop_cons _ _ _ _ _ _ _ (by omega),
      if_neg (by omega : ¬(1 + 1 > 4)),
      filenameLoop_cons _ _ _ _ _ _ _ (by omega),
      if_neg (by omega : ¬(2 + 1 > 4)),
      filenameLoop_cons _ _ _ _ _ _ _ (by omega),
      if_neg (by omega : ¬(3 + 1 > 4)),
      filenameLoop_cons _ _ _ _ _ _ _ (by omega),
      if_pos (by omega : 4 + 1 > 4),
      filenameLoop_cons _ _ _ _ _ _ _ (by omega),
      if_neg (by omega : ¬(1 + 1 > 4)),
      filenameLoop_nil _ _ _ _ _ _ _ (by omega)]
    decide
  · decide
  · intro s e d hs1 hs2 hd1 hd2 hsd hde
    simp only [dateLE] at hsd hde
    have h := filenameLoop_mem "" pad2 12 e.year e.month d.year d.month
      s.year s.month hd1 (by omega) (by omega) hs1 (by omega) (by omega)
    simp only [String.append_empty] at h
    exact h
  · intro s e d hs1 hs2 hd1 hd2 hsd hde
    simp only [dateLE] at hsd hde
    exact filenameLoop_mem "Q" (fun n => toString n) 4 e.year (quarterOf e)
      d.year (quarterOf d) s.year (quarterOf s)
      (by simp only [quarterOf]; omega) (by simp only [quarterOf]; omega)
      (by simp only [quarterOf]; omega) (by simp only [quarterOf]; omega)
      (by simp only [quarterOf]; omega) (by simp only [quarterOf]; omega)

/-- Witness for C5's general enumeration parts at concrete dates. -/
theorem period_key_enumeration_witness :
    "201802" ∈ date2filenamelist .MONTH ⟨2018, 1, 5⟩ ⟨2018, 3, 1⟩ ∧
    "2017Q3" ∈ date2filenamelist .QUARTER ⟨2017, 1, 1⟩ ⟨2018, 1, 1⟩ := by
  constructor
  · exact period_key_enumeration.2.2.2.1 ⟨2018, 1, 5⟩ ⟨2018, 3, 1⟩ ⟨2018, 2, 10⟩
      (by decide) (by decide) (by decide) (by decide) (by decide) (by decide)
  · exact period_key_enumeration.2.2.2.2 ⟨2017, 1, 1⟩ ⟨2018, 1, 1⟩ ⟨2017, 8, 2⟩
      (by decide) (by decide) (by decide) (by decide) (by decide) (by decide)

/- ## Request-validation claims -/

/-- C8 fails on the code: `ParamsParser.from_dict` never checks the
start/end presence pattern — the `_validation_rule` dictionary it builds
is never read.  A request with classification `(UNSTRUCTURED,)` and a
start time present builds successfully instead of raising
`InvalidParameterError`. -/
theorem from_dict_pattern_counterexample :
    from_dict "db" "d" (some 0) none [Cate.classification .UNSTRUCTURED] =
      .ok { mainPath := "db", relPath := "d", startTime := some 0,
            endTime := none,
            storeFmt := [Cate.classification .UNSTRUCTURED] } := rfl

/-- C8 (amended): `from_dict` raises `InvalidParameterError` exactly for
a classification failing `validate` and otherwise succeeds regardless of
the start/end pattern; the presence-pattern check is performed by
`Database.query`, which raises for the only-end pattern and for any
pattern whose required top-level classification differs from the
request's, and accepts a matching pattern. -/
theorem from_dict_validation :
    (∀ db rel s e fmt, validate fmt = some false →
      from_dict db rel s e fmt = .error .invalidParameter) ∧
    (∀ db rel s e fmt, validate fmt = some true →
      from_dict db rel s e fmt =
        .ok { mainPath := db, relPath := rel, startTime := s, endTime := e,
              storeFmt := fmt }) ∧
    (∀ db rel s e fmt, validate fmt = some true →
      queryValidationRule s e = none →
      dbQuery db rel fmt s e = .error .invalidQuery) ∧
    (∀ db rel s e fmt c0 v, validate fmt = some true →
      fmt.head? = some c0 → queryValidationRule s e = some v → v ≠ c0 →
      dbQuery db rel fmt s e = .error .invalidQuery) ∧
    (∀ db rel s e fmt c0 v, validate fmt = some true →
      fmt.head? = some c0 → queryValidationRule s e = some v → v = c0 →
      dbQuery db rel fmt s e =
        .ok { mainPath := db, relPath := rel, startTime := s, endTime := e,
              storeFmt := fmt }) := by
  refine ⟨?_, ?_, ?_, ?_, ?_⟩
  · intro db rel s e fmt hval
    simp [from_dict, hval]
  · intro db rel s e fmt hval
    simp [from_dict, hval]
  · intro db rel s e fmt hval hqr
    simp [dbQuery, from_dict, hval, hqr]
  · intro db rel s e fmt c0 v hval hhead hqr hne
    simp [dbQuery, from_dict, hval, hqr, hhead, hne]
  · intro db rel s e fmt c0 v hval hhead hqr heq
    simp [dbQuery, from_dict, hval, hqr, hhead, heq]

/-- Witness for the amended C8 at concrete requests. -/
theorem from_dict_validation_witness :
    from_dict "db" "d" none none
      [Cate.classification .STRUCTURED, Cate.formatCategory .PANEL] =
        .error .invalidParameter ∧
    dbQuery "db" "d" [Cate.classification .UNSTRUCTURED] (some 0) none =
      .error .invalidQuery ∧
    dbQuery "db" "d" [Cate.classification .STRUCTURED,
        Cate.valueCategory .CHAR, Cate.formatCategory .PANEL] none (some 0) =
      .error .invalidQuery :=
  ⟨from_dict_validation.1 "db" "d" none none _ (by decide),
    from_dict_validation.2.2.2.1 "db" "d" (some 0) none _
      (Cate.classification .UNSTRUCTURED) (Cate.classification .STRUCTURED)
      (by decide) rfl rfl (by decide),
    from_dict_validation.2.2.1 "db" "d" none (some 0) _ (by decide) rfl⟩

/- ## Catalog round-trip claim -/

theorem cateName_parseClassification (s : String) (x : Cate)
    (h : parseClassification s = some x) : cateName x = s := by
  unfold parseClassification at h
  split at h
  · cases h; rfl
  · cases h; rfl
  · cases h

theorem cateName_parseValueCategory (s : String) (x : Cate)
    (h : parseValueCategory s = some x) : cateName x = s := by
  unfold parseValueCategory at h
  split at h
  · cases h; rfl
  · cases h; rfl
  · cases h

theorem cateName_parseFormatCategory (s : String) (x : Cate)
    (h : parseFormatCategory s = some x) : cateName x = s := by
  unfold parseFormatCategory at h
  split at h
  · cases h; rfl
  · cases h; rfl
  · cases h

theorem toStrTuple_parse (fmt : List String) (cates : List Cate)
    (h : strs2StoreFormat fmt = some cates) : toStrTuple cates = fmt := by
  rcases fmt with _ | ⟨a, _ | ⟨b, _ | ⟨c, _ | ⟨d, rest⟩⟩⟩⟩
  · simp [strs2StoreFormat] at h
  · simp [strs2StoreFormat] at h
  · simp [strs2StoreFormat] at h
  · simp only [strs2StoreFormat] at h
    cases hpa : parseClassification a with
    | none => rw [hpa] at h; cases h
    | some x =>
      cases hpb : parseValueCategory b with
      | none => rw [hpa, hpb] at h; cases h
      | some y =>
        cases hpc : parseFormatCategory c with
        | none => rw [hpa, hpb, hpc] at h; cases h
        | some z =>
          rw [hpa, hpb, hpc] at h
          cases h
          simp [toStrTuple, cateName_parseClassification a x hpa,
            cateName_parseValueCategory b y hpb,
            cateName_parseFormatCategory c z hpc]
  · simp [strs2StoreFormat] at h

theorem dictInsert_fresh (acc : List (String × DNode)) (k : String) (v : DNode)
    (h : ∀ kv ∈ acc, kv.1 ≠ k) : dictInsert acc k v = acc ++ [(k, v)] := by
  induction acc with
  | nil => rfl
  | cons kv rest ih =>
    obtain ⟨k0, v0⟩ := kv
    simp only [dictInsert]
    rw [if_neg (h (k0, v0) (List.mem_cons_self _ _))]
    rw [ih (fun kv2 h2 => h kv2 (List.mem_cons_of_mem _ h2))]
    rfl

mutual

theorem wf_roundtrip_node (t : MetaTree) (h : wfMeta t = true) :
    ∃ d, init_from_meta t = some d ∧ nodeName d = metaName t ∧
      to_dict d = some t := by
  cases t with
  | leaf name fmt =>
    simp only [wfMeta] at h
    obtain ⟨f, hf⟩ := Option.isSome_iff_exists.mp h
    refine ⟨.mk name (some f) [], ?_, rfl, ?_⟩
    · simp only [init_from_meta]
      rw [hf]
    · simp only [to_dict]
      rw [toStrTuple_parse fmt f hf]
  | node name children =>
    simp only [wfMeta, Bool.and_eq_true] at h
    obtain ⟨hne, hch⟩ := h
    obtain ⟨pairs, hinit, hdict⟩ := wf_roundtrip_children children []
      hch (by intro u _ kv hkv; cases hkv)
    simp only [List.nil_append] at hinit
    refine ⟨.mk name none pairs, ?_, rfl, ?_⟩
    · simp only [init_from_meta]
      rw [hinit]
    · cases hp : pairs with
      | nil =>
        rw [hp] at hdict
        simp only [toDictChildren] at hdict
        cases hdict
        simp [List.isEmpty] at hne
      | cons p ps =>
        rw [hp] at hdict
        simp only [to_dict]
        rw [hdict]

theorem wf_roundtrip_children (ts : List MetaTree) (acc : List (String × DNode))
    (h : wfChildren ts = true)
    (hfresh : ∀ u ∈ ts, ∀ kv ∈ acc, kv.1 ≠ metaName u) :
    ∃ pairs, initChildrenAux acc ts = some (acc ++ pairs) ∧
      toDictChildren pairs = some ts := by
  cases ts with
  | nil => exact ⟨[], by simp [initChildrenAux], rfl⟩
  | cons t rest =>
    simp only [wfChildren, Bool.and_eq_true] at h
    obtain ⟨⟨hwf, hall⟩, hrest⟩ := h
    obtain ⟨d, hinit, hname, hdict⟩ := wf_roundtrip_node t hwf
    have hins : dictInsert acc (nodeName d) d = acc ++ [(nodeName d, d)] :=
      dictInsert_fresh acc (nodeName d) d (by
        intro kv hkv
        rw [hname]
        exact hfresh t (List.mem_cons_self _ _) kv hkv)
    have hfresh2 : ∀ u ∈ rest, ∀ kv ∈ acc ++ [(nodeName d, d)],
        kv.1 ≠ metaName u := by
      intro u hu kv hkv
      rcases List.mem_append.mp hkv with h1 | h1
      · exact hfresh u (List.mem_cons_of_mem _ hu) kv h1
      · have hkv2 : kv = (nodeName d, d) := by simpa using h1
        have hne2 : metaName u ≠ metaName t := by
          have := List.all_eq_true.mp hall u hu
          simpa using this
        rw [hkv2]
        show nodeName d ≠ metaName u
        rw [hname]
        exact fun he => hne2 he.symm
    obtain ⟨pairs2, hinit2, hdict2⟩ := wf_roundtrip_children rest
      (acc ++ [(nodeName d, d)]) hrest hfresh2
    refine ⟨(nodeName d, d) :: pairs2, ?_, ?_⟩
    · simp only [initChildrenAux]
      rw [hinit]
      dsimp only
      rw [hins, hinit2]
      simp
    · simp only [toDictChildren]
      rw [hdict, hdict2]

end

/-- C9: for every well-formed serialized catalog tree, rebuilding the
node graph with `init_from_meta` and serializing it again with `to_dict`
returns the same tree: names, children, and leaf classifications all
round-trip losslessly, and exactly the leaves carry a `store_fmt`. -/
theorem catalog_roundtrip (t : MetaTree) (h : wfMeta t = true) :
    roundTrip t = some t := by
  obtain ⟨d, h1, _h2, h3⟩ := wf_roundtrip_node t h
  unfold roundTrip
  rw [h1]
  dsimp only
  exact h3

/-- Witness for C9 at the concrete tree `exTree`. -/
theorem catalog_roundtrip_witness :
    wfMeta exTree = true ∧ roundTrip exTree = some exTree :=
  ⟨by decide, catalog_roundtrip exTree (by decide)⟩

/- ## Orchestrator claims -/

/-- C10: the `DataDescription` constructor applies `tuple()` to its
`dep` argument unconditionally, so the documented default `dep=None`
raises `TypeError`; every successfully constructed description has a
tuple-valued `dependency`, and the `dependency is None` early-return
branch of `is_dependency_updated` is unreachable for constructed
descriptions (the check always proceeds into the dependency loop). -/
theorem data_description_dependency :
    (∀ name, mkDataDescription name none = .error ()) ∧
    (∀ name dep dd, mkDataDescription name dep = .ok dd →
      ∃ l, dd.dependency = some l ∧
        ∀ meta endTime, is_dependency_updated dd.dependency meta endTime =
          depCheckLoop l meta endTime) := by
  constructor
  · intro name
    rfl
  · intro name dep dd h
    cases dep with
    | none => cases h
    | some l =>
      simp only [mkDataDescription, Except.ok.injEq] at h
      subst h
      exact ⟨l, rfl, fun meta endTime => rfl⟩

/-- Witness for C10 at a concrete description. -/
theorem data_description_dependency_witness :
    mkDataDescription "x" none = .error () ∧
    ∃ l, ({ name := "x", dependency := some ["y"] } :
        DataDescription).dependency = some l ∧
      ∀ meta endTime, is_dependency_updated
          ({ name := "x", dependency := some ["y"] } :
            DataDescription).dependency meta endTime =
        depCheckLoop l meta endTime :=
  ⟨data_description_dependency.1 "x",
    data_description_dependency.2 "x" (some ["y"]) _ rfl⟩

/-- C6 describes the intended behaviour, but the code aborts instead:
with an empty watermark map, running `A` (no dependencies, recompute ok,
insert reporting failure) and then `B` (depending on `A`) makes `B`'s
dependency check evaluate `ut_meta['A']`, which raises an uncaught
`KeyError` that kills the whole run — `B` is not skipped and no boolean
is returned.  With `A`'s insert succeeding, the same run watermarks `A`
before `B`'s check, updates both, and returns true. -/
theorem update_all_keyerror_abort :
    update_all 1 0
      [{ dd := { name := "A", dependency := some [] }, inTest := false,
          calcOk := true, insertOk := false },
        { dd := { name := "B", dependency := some ["A"] }, inTest := false,
          calcOk := true, insertOk := true }] [] = .error () ∧
    update_all 1 0
      [{ dd := { name := "A", dependency := some [] }, inTest := false,
          calcOk := true, insertOk := true },
        { dd := { name := "B", dependency := some ["A"] }, inTest := false,
          calcOk := true, insertOk := true }] [] = .ok true := by
  constructor <;> rfl

theorem lookupMeta_setMeta (meta : List (String × Int)) (k : String) (v : Int) :
    lookupMeta (setMeta meta k v) k = some v := by
  induction meta with
  | nil => simp [setMeta, lookupMeta]
  | cons kv rest ih =>
    obtain ⟨k0, v0⟩ := kv
    simp only [setMeta]
    by_cases h : k0 = k
    · rw [if_pos h]
      simp [lookupMeta, h]
    · rw [if_neg h]
      simp only [lookupMeta]
      rw [if_neg h]
      exact ih

/-- C7: the per-dataset watermark discipline of `update_all`.  The
persisted map changes only when the dataset's recompute and insert both
succeeded, and then it equals the in-memory map with the dataset
watermarked at the run's end time (insert happens-before flush); whenever
the in-memory watermark changed, the disk copy was flushed in the same
step (immediately per dataset, not at run end); and on recompute or
insert failure the watermark map and the persisted map are unchanged and
the overall result is false. -/
theorem watermark_flush_discipline (endTime defaultStart : Int)
    (s : UpdState) (m : DataMsg) (s2 : UpdState)
    (h : updStep endTime defaultStart s m = .ok s2) :
    (s2.disk ≠ s.disk →
      m.calcOk = true ∧ m.insertOk = true ∧ s2.disk = s2.utMeta ∧
        lookupMeta s2.utMeta m.dd.name = some endTime) ∧
    (s2.utMeta ≠ s.utMeta →
      m.calcOk = true ∧ m.insertOk = true ∧ s2.disk = s2.utMeta) ∧
    ((m.inTest = false ∧
        is_dependency_updated m.dd.dependency s.utMeta endTime = .ok true ∧
        (lookupMeta s.utMeta m.dd.name).getD defaultStart < endTime ∧
        ¬(m.calcOk = true ∧ m.insertOk = true)) →
      s2.utMeta = s.utMeta ∧ s2.disk = s.disk ∧ s2.updateResult = false) := by
  unfold updStep at h
  by_cases ht : m.inTest = true
  · rw [if_pos ht] at h
    simp only [Except.ok.injEq] at h
    subst h
    refine ⟨fun hd => absurd rfl hd, fun hd => absurd rfl hd, ?_⟩
    intro hpre
    rw [hpre.1] at ht
    cases ht
  · rw [if_neg ht] at h
    cases hdep : is_dependency_updated m.dd.dependency s.utMeta endTime with
    | error e =>
      rw [hdep] at h
      cases h
    | ok b =>
      rw [hdep] at h
      cases b with
      | false =>
        dsimp only at h
        simp only [Except.ok.injEq] at h
        subst h
        refine ⟨fun hd => absurd rfl hd, fun hd => absurd rfl hd, ?_⟩
        intro hpre
        exact absurd hpre.2.1 (by simp)
      | true =>
        dsimp only at h
        by_cases hst : (lookupMeta s.utMeta m.dd.name).getD defaultStart ≥ endTime
        · rw [if_pos hst] at h
          simp only [Except.ok.injEq] at h
          subst h
          refine ⟨fun hd => absurd rfl hd, fun hd => absurd rfl hd, ?_⟩
          intro hpre
          exact absurd hpre.2.2.1 (by omega)
        · rw [if_neg hst] at h
          by_cases hc : m.calcOk = true
          · by_cases hi : m.insertOk = true
            · have hres : update_single_data m
                  ((lookupMeta s.utMeta m.dd.name).getD defaultStart) endTime
                  s.utMeta = (true, setMeta s.utMeta m.dd.name endTime) := by
                simp [update_single_data, hc, hi]
              rw [hres] at h
              rw [if_pos rfl] at h
              simp only [Except.ok.injEq] at h
              subst h
              refine ⟨?_, ?_, ?_⟩
              · intro _
                exact ⟨hc, hi, rfl, lookupMeta_setMeta s.utMeta m.dd.name endTime⟩
              · intro _
                exact ⟨hc, hi, rfl⟩
              · intro hpre
                exact absurd ⟨hc, hi⟩ hpre.2.2.2
            · have hres : update_single_data m
                  ((lookupMeta s.utMeta m.dd.name).getD defaultStart) endTime
                  s.utMeta = (false, s.utMeta) := by
                simp [update_single_data, hc]
                simp at hi
                simp [hi]
              rw [hres] at h
              rw [if_neg Bool.false_ne_true] at h
              simp only [Except.ok.injEq] at h
              subst h
              exact ⟨fun hd => absurd rfl hd, fun hd => absurd rfl hd,
                fun _ => ⟨rfl, rfl, rfl⟩⟩
          · have hres : update_single_data m
                ((lookupMeta s.utMeta m.dd.name).getD defaultStart) endTime
                s.utMeta = (false, s.utMeta) := by
              simp at hc
              simp [update_single_data, hc]
            rw [hres] at h
            rw [if_neg Bool.false_ne_true] at h
            simp only [Except.ok.injEq] at h
            subst h
            exact ⟨fun hd => absurd rfl hd, fun hd => absurd rfl hd,
              fun _ => ⟨rfl, rfl, rfl⟩⟩

/-- Witness for C7 at a concrete successful step. -/
theorem watermark_flush_discipline_witness :
    updStep 1 0 { utMeta := [], disk := [], updateResult := true } exMsg1 =
      .ok { utMeta := [("A", 1)], disk := [("A", 1)], updateResult := true } ∧
    ({ utMeta := [("A", 1)], disk := [("A", 1)], updateResult := true } :
      UpdState).disk =
      ({ utMeta := [("A", 1)], disk := [("A", 1)], updateResult := true } :
        UpdState).utMeta ∧
    lookupMeta [("A", 1)] "A" = some 1 := by
  have h := watermark_flush_discipline 1 0
    { utMeta := [], disk := [], updateResult := true } exMsg1
    { utMeta := [("A", 1)], disk := [("A", 1)], updateResult := true } (by rfl)
  exact ⟨rfl, (h.1 (by decide)).2.2.1, (h.1 (by decide)).2.2.2⟩
